import Mathlib

/-!
Verification development for the CAU_Code repository's profile-verification
workflow (the subsystem documented by the design spec).

The repository ships the frontend (React) and the database schema; the
backend verification service (issuer, state machine, observer, rate limiter)
is reached only through its HTTP API from `authService.js`.  Definitions
embedding frontend code or the SQL schema are translated directly from those
sources; definitions for the missing backend carry a doc comment starting
with `Modelled from the spec:` and follow the spec text.

Time is modelled as a natural number of seconds; verification codes are
opaque tokens modelled as natural numbers.
-/

/-- Status column of `profile_verification` in `schema.sql`
(`-- pending, verified, expired, failed`), also the status strings the
frontend switches over in `VerifyAuth.jsx`. -/
inductive VStatus where
  | pending
  | verified
  | expired
  | failed
deriving DecidableEq, Repr

/-- Row of the `profile_verification` table (`schema.sql` lines 61-73):
owning user, unique code, target solved.ac username, status, expiry,
verification timestamp, failure reason, creation timestamp. -/
structure VRequest where
  userId : Nat
  code : Nat
  username : String
  status : VStatus
  createdAt : Nat
  expiresAt : Nat
  verifiedAt : Option Nat
  failedReason : Option String
deriving DecidableEq, Repr

/-- Row of the `users` table (`schema.sql` lines 8-29), restricted to the
fields the verification flow reads or writes. -/
structure VUser where
  userId : Nat
  googleId : String
  name : String
  solvedacUsername : Option String
  profileVerified : Bool
deriving DecidableEq, Repr

/-- Modelled from the spec: the outcome of one external profile-bio lookup
(spec section 4.3) — code found, code not found but profile exists, profile
not found (definitive), or a transient network failure. -/
inductive BioLookup where
  | found
  | notFound
  | profileNotFound
  | transient
deriving DecidableEq, Repr

/-- Modelled from the spec: the fixed expiry window of an issued request, in
seconds.  The spec fixes it only as "a fixed duration from issuance"
(section 4.1) and uses 10 minutes in its scenarios (section 8). -/
def expiryWindow : Nat := 600

def profileNotFoundReason : String := "profile not found"

/-- Modelled from the spec: the verification state machine's status-check
acting on a single stored request (spec sections 4.2 and 8).  On a terminal
status it is a no-op.  On `pending`, expiry is decided first — a pending
request past `expires_at` reports `expired` even when the bio now holds the
code — otherwise the observer outcome drives `pending → verified` (code
found), `pending → failed` (profile definitively absent), or leaves the
request pending (code not yet present, or a transient failure, which must
not drive any transition). -/
def checkStatusReq (now : Nat) (obs : BioLookup) (r : VRequest) : VRequest :=
  if r.status = .pending then
    if r.expiresAt < now then { r with status := .expired }
    else
      match obs with
      | .found => { r with status := .verified, verifiedAt := some now }
      | .profileNotFound =>
          { r with status := .failed, failedReason := some profileNotFoundReason }
      | .notFound => r
      | .transient => r
  else r

/-- Modelled from the spec: repeated status-checks, each at its own time and
with its own observer outcome, applied in sequence to one stored request. -/
def checkMany (l : List (Nat × BioLookup)) (r : VRequest) : VRequest :=
  l.foldl (fun r p => checkStatusReq p.1 p.2 r) r

/-- Whether one status-check would apply the `pending → verified`
transition to this request. -/
def willVerify (now : Nat) (obs : BioLookup) (r : VRequest) : Bool :=
  r.status == .pending && !(decide (r.expiresAt < now)) && obs == .found

/-- Database state: the `users` and `profile_verification` tables. -/
structure DB where
  users : List VUser
  requests : List VRequest
deriving DecidableEq, Repr

def codesOf (l : List VRequest) : List Nat := l.map (fun r => r.code)

/-- Modelled from the spec: code allocation.  The spec requires "a fresh
random code guaranteed unique among live (non-expired) requests"
(section 4.1); randomness is modelled as a deterministic choice of a token
strictly above every token in the table, which is fresh. -/
def freshCode (l : List VRequest) : Nat :=
  (codesOf l).foldr max 0 + 1

/-- Username syntax rule (spec section 4.1: alphanumeric plus underscore,
bounded length; the bound is the schema's `VARCHAR(50)`). -/
def validUsername (s : String) : Bool :=
  s.length > 0 && s.length ≤ 50 && s.toList.all (fun c => c.isAlphanum || c == '_')

/-- Modelled from the spec: supersession (sections 4.1 and 5).  Issuing a
new request invalidates the previously pending request of the same user;
the spec allows marking it superseded "or simply stop it from ever
transitioning — lazily expire it", and the status enum has no extra value,
so the old pending request is moved to `expired`. -/
def supersede (u : Nat) (r : VRequest) : VRequest :=
  if r.userId == u && r.status == .pending then { r with status := .expired } else r

/-- New pending request as the issuer creates it (spec section 4.1): fresh
code, expiry a fixed window after issuance. -/
def mkRequest (u : Nat) (name : String) (code : Nat) (now : Nat) : VRequest :=
  { userId := u, code := code, username := name, status := .pending,
    createdAt := now, expiresAt := now + expiryWindow,
    verifiedAt := none, failedReason := none }

/-- Issuer failures (spec section 4.1). -/
inductive IssueError where
  | invalidUsername
  | alreadyVerified
  | unknownUser
deriving DecidableEq, Repr

def findUser (s : DB) (u : Nat) : Option VUser :=
  s.users.find? (fun usr => usr.userId == u)

def findByCode (s : DB) (c : Nat) : Option VRequest :=
  s.requests.find? (fun r => r.code == c)

/-- Status recorded for a code, when the table holds it. -/
def statusOfCode (s : DB) (c : Nat) : Option VStatus :=
  (findByCode s c).map (fun r => r.status)

/-- Modelled from the spec: the verification issuer (section 4.1).  Rejects
a syntactically invalid username and an already-verified user; otherwise
allocates a fresh code, supersedes any previously pending request of the
user, and stores a new pending request with the fixed expiry window. -/
def issueRequest (s : DB) (u : Nat) (name : String) (now : Nat) :
    Except IssueError (DB × VRequest) :=
  if !(validUsername name) then .error .invalidUsername
  else
    match findUser s u with
    | none => .error .unknownUser
    | some usr =>
      if usr.profileVerified then .error .alreadyVerified
      else
        let req := mkRequest u name (freshCode s.requests) now
        .ok ({ s with requests := req :: s.requests.map (supersede u) }, req)

/-- Modelled from the spec: the database effect of one status-check on a
code (sections 4.2 and 5): the matching request is put through the state
machine, and when the `pending → verified` transition fires the owning
user's `profile_verified` flag is set (the only flag-setting path the spec
admits). -/
def checkOp (s : DB) (c : Nat) (now : Nat) (obs : BioLookup) : DB :=
  { users := s.users.map (fun usr =>
      if s.requests.any (fun r => r.code == c && r.userId == usr.userId && willVerify now obs r)
      then { usr with profileVerified := true } else usr),
    requests := s.requests.map (fun r =>
      if r.code == c then checkStatusReq now obs r else r) }

/-- `cleanup_expired_sessions` from `schema.sql` (lines 177-184), restricted
to the `profile_verification` table: `DELETE FROM profile_verification
WHERE expires_at < NOW() AND status = 'pending'`. -/
def cleanupOp (s : DB) (now : Nat) : DB :=
  { s with requests := s.requests.filter (fun r =>
      !(decide (r.expiresAt < now) && r.status == .pending)) }

/-- The operations that touch verification state. -/
inductive Op where
  | issue (u : Nat) (name : String) (now : Nat)
  | check (c : Nat) (now : Nat) (obs : BioLookup)
  | cleanup (now : Nat)
deriving DecidableEq, Repr

def applyOp (op : Op) (s : DB) : DB :=
  match op with
  | .issue u name now =>
    match issueRequest s u name now with
    | .ok (s2, _) => s2
    | .error _ => s
  | .check c now obs => checkOp s c now obs
  | .cleanup now => cleanupOp s now

def applyOps (ops : List Op) (s : DB) : DB :=
  ops.foldl (fun s op => applyOp op s) s

def pendingCountU (u : Nat) (s : DB) : Nat :=
  s.requests.countP (fun r => r.userId == u && r.status == .pending)

/-- At most one live pending request per user (spec sections 4.1 and 9). -/
def atMostOnePending (s : DB) : Prop :=
  ∀ u, pendingCountU u s ≤ 1

/-- Modelled from the spec: what a status-check returns to its caller
(spec section 6): the status with auxiliary data, a rate-limit error with a
retry-after duration, or a retryable error for a transient observer
failure. -/
inductive CheckResult where
  | status (st : VStatus) (expiresAt : Option Nat) (failedReason : Option String)
  | rateLimited (retryAfterSeconds : Nat)
  | retryable
deriving DecidableEq, Repr

/-- Modelled from the spec: the caller-visible outcome of one
(non-rate-limited) status-check (spec sections 4.2, 4.3 and 6): a transient
observer failure on a live pending request surfaces as a retryable error;
otherwise the resulting status is reported, with the expiry time while
pending and the failure reason when failed. -/
def checkOutcome (now : Nat) (obs : BioLookup) (r : VRequest) : CheckResult :=
  if r.status == .pending && !(decide (r.expiresAt < now)) && obs == .transient then
    .retryable
  else
    let r2 := checkStatusReq now obs r
    .status r2.status (if r2.status == .pending then some r2.expiresAt else none)
      r2.failedReason

/-- Modelled from the spec: the per-user/per-code rate limit on
status-checks (spec section 4.2) is a tunable bound N on checks inside the
limit window. -/
def rateLimitMax : Nat := 5

/-- Rate-limit window in seconds: the value `authService.js` falls back to
when the 429 payload carries no `window_seconds` (lines 168-170). -/
def rateLimitWindowSeconds : Nat := 60

/-- Modelled from the spec: a status-check behind the rate limiter.  `cnt`
is the number of checks already made for this code/user inside the current
window; once the bound is reached the check returns `RateLimited` with a
retry-after duration and performs no state transition. -/
def checkRL (cnt : Nat) (now : Nat) (obs : BioLookup) (r : VRequest) :
    VRequest × CheckResult :=
  if rateLimitMax ≤ cnt then (r, .rateLimited rateLimitWindowSeconds)
  else (checkStatusReq now obs r, checkOutcome now obs r)

/-- Modelled from the spec: `n` status-checks on one request serialized by
the single-writer discipline of spec section 5 (each check is an atomic
guarded read-modify-write), all at the same time and with the same observer
outcome.  Returns the final request, how many of the checks applied the
`pending → verified` transition, and the status each caller observed. -/
def runChecks (now : Nat) (obs : BioLookup) : Nat → VRequest → VRequest × Nat × List VStatus
  | 0, r => (r, 0, [])
  | Nat.succ n, r =>
    let r2 := checkStatusReq now obs r
    let rest := runChecks now obs n r2
    (rest.1, (if willVerify now obs r then 1 else 0) + rest.2.1, r2.status :: rest.2.2)

/-- The status payload of a successful `/auth/check-verification` response
as `VerifyAuth.jsx` consumes it: `status`, `expires_at`, `failed_reason`. -/
structure StatusPayload where
  status : VStatus
  expiresAt : Option Nat
  failedReason : Option String
deriving DecidableEq, Repr

/-- An HTTP response to the frontend: success with a payload, or an error
with its HTTP status code and, for 429, the optional
`detail.window_seconds` field. -/
inductive ApiResponse where
  | ok (payload : StatusPayload)
  | httpError (statusCode : Nat) (windowSeconds : Option Nat)
deriving DecidableEq, Repr

/-- The object `AuthService.checkVerificationStatus` resolves with. -/
structure FEResult where
  success : Bool
  data : Option StatusPayload
  rateLimited : Bool
  retryAfter : Option Nat
deriving DecidableEq, Repr

/-- Embedding of `AuthService.checkVerificationStatus`
(`authService.js` lines 150-179): a successful response is wrapped with
`success: true`; a 429 error returns `success: false, rateLimited: true`
with `retryAfter` taken from `detail.window_seconds` and defaulting to 60;
any other error returns a plain failure. -/
def feCheckVerificationStatus : ApiResponse → FEResult
  | .ok p => { success := true, data := some p, rateLimited := false, retryAfter := none }
  | .httpError sc w =>
    if sc == 429 then
      { success := false, data := none, rateLimited := true,
        retryAfter := some (w.getD rateLimitWindowSeconds) }
    else
      { success := false, data := none, rateLimited := false, retryAfter := none }

/-- The `status` state of the `VerifyAuth` component
(`VerifyAuth.jsx` line 16). -/
inductive UIStatus where
  | checking
  | pending
  | verified
  | expired
  | failed
deriving DecidableEq, Repr

/-- The `VerifyAuth` component state touched by `checkStatus` and
`updateTimeLeft`: displayed status, remaining milliseconds, error text. -/
structure VerifyAuthUI where
  status : UIStatus
  timeLeft : Option Int
  error : Option String
deriving DecidableEq, Repr

/-- A thrown JavaScript error, by the name it reports. -/
inductive JsError where
  | referenceError (ident : String)
deriving DecidableEq, Repr

def setIsPollingIdent : String := "setIsPolling"

/-- Embedding of `updateTimeLeft` (`VerifyAuth.jsx` lines 102-115): with
`diff = expiry - now` in milliseconds, the `diff <= 0` branch runs
`setTimeLeft(null)`, `setStatus('expired')` and then `setIsPolling(false)`
— but no `isPolling` state exists in the component and `setIsPolling` is
bound nowhere, so that call raises `ReferenceError: setIsPolling is not
defined` after the first two setters have run; the `diff > 0` branch stores
the remaining time and returns normally. -/
def updateTimeLeft (nowMs expiryMs : Int) (st : VerifyAuthUI) :
    VerifyAuthUI × Option JsError :=
  let diff := expiryMs - nowMs
  if diff ≤ 0 then
    ({ st with timeLeft := none, status := .expired },
      some (.referenceError setIsPollingIdent))
  else
    ({ st with timeLeft := some diff }, none)

def uiMsgRateLimited : String := "too many requests, retry later"
def uiMsgCheckFailed : String := "verification status check failed"

/-- Embedding of the state effect of `checkStatus`
(`VerifyAuth.jsx` lines 44-99): on `success && data` the payload status is
mirrored into the component status (the failed case also stores the failure
reason as the error text); otherwise a rate-limited result only records an
error message and returns early — the displayed status is left unchanged —
while any other failure sets the status to failed. -/
def uiApplyCheck (res : FEResult) (st : VerifyAuthUI) : VerifyAuthUI :=
  match res.success, res.data with
  | true, some d =>
    match d.status with
    | .verified => { st with status := .verified, error := none }
    | .pending => { st with status := .pending, error := none }
    | .expired => { st with status := .expired, error := none }
    | .failed => { st with status := .failed, error := some (d.failedReason.getD uiMsgCheckFailed) }
  | _, _ =>
    if res.rateLimited then { st with error := some uiMsgRateLimited }
    else { st with status := .failed, error := some uiMsgCheckFailed }

/-- The slice of the frontend user object the route guards read. -/
structure FEUser where
  name : String
  profileVerified : Bool
deriving DecidableEq, Repr

/-- The values `ProtectedRoute` and friends read from `useAuth()`. -/
structure AuthSnapshot where
  isLoading : Bool
  isAuthenticated : Bool
  user : Option FEUser
deriving DecidableEq, Repr

/-- `AuthContext.jsx` line 265:
`isProfileVerified: state.user?.profile_verified || false`. -/
def isProfileVerifiedCtx (a : AuthSnapshot) : Bool :=
  (a.user.map (fun u => u.profileVerified)).getD false

/-- What a route guard renders: the loading spinner, a `Navigate` redirect,
or its children. -/
inductive RouteRender where
  | spinner
  | redirect (target : String)
  | children
deriving DecidableEq, Repr

def loginPath : String := "/login"
def solvedacAuthPath : String := "/auth/solvedac"
def rootPath : String := "/"

/-- Embedding of `ProtectedRoute` (`src/unnamed/part_010` lines 10-54):
spinner while loading; redirect to `redirectTo` (default `/login`) when not
authenticated; redirect to `/auth/solvedac` when profile verification is
required but missing; otherwise render the children. -/
def protectedRoute (requireProfileVerification : Bool) (redirectTo : String)
    (a : AuthSnapshot) : RouteRender :=
  if a.isLoading then .spinner
  else if !a.isAuthenticated then .redirect redirectTo
  else if requireProfileVerification && !(isProfileVerifiedCtx a) then .redirect solvedacAuthPath
  else .children

/-- Embedding of `UnverifiedOnlyRoute` (`src/unnamed/part_010`
lines 86-113): spinner while loading; redirect to `/login` when not
authenticated; redirect to `redirectTo` (default `/`) when the profile is
already verified; otherwise render the children. -/
def unverifiedOnlyRoute (redirectTo : String) (a : AuthSnapshot) : RouteRender :=
  if a.isLoading then .spinner
  else if !a.isAuthenticated then .redirect loginPath
  else if isProfileVerifiedCtx a then .redirect redirectTo
  else .children

def seedGoogleId : String := "test_google_id_dlgusxor12"
def seedDisplayName : String := "김중앙"
def seedSolvedacName : String := "dlgusxor12"

/-- The test user `schema.sql` seeds (lines 164-167): `INSERT INTO users
(google_id, email, name, solvedac_username, profile_verified) VALUES
(..., 'dlgusxor12', TRUE)`. -/
def seedUser : VUser :=
  { userId := 1, googleId := seedGoogleId, name := seedDisplayName,
    solvedacUsername := some seedSolvedacName, profileVerified := true }

/-- The database state right after `schema.sql` runs: the seeded test user
already carries `profile_verified = TRUE`, while `profile_verification`
receives no seed rows at all. -/
def initialDB : DB := { users := [seedUser], requests := [] }

/-- The `UNIQUE` constraint on `profile_verification.verification_code`
(`schema.sql` line 64): an insert whose code already appears in the table
is rejected. -/
def insertVerificationRow (t : List VRequest) (r : VRequest) :
    Option (List VRequest) :=
  if t.any (fun x => x.code == r.code) then none else some (r :: t)

def exUsername : String := "alice_01"

/-- A concrete pending request used in witness statements. -/
def exPendingReq : VRequest :=
  { userId := 7, code := 42, username := exUsername, status := .pending,
    createdAt := 0, expiresAt := 600, verifiedAt := none, failedReason := none }

/-- The `VerifyAuth` component state as mounted. -/
def exUIState : VerifyAuthUI := { status := .checking, timeLeft := none, error := none }

/-- A loaded, authenticated, profile-verified auth snapshot. -/
def exVerifiedAuth : AuthSnapshot :=
  { isLoading := false, isAuthenticated := true,
    user := some { name := exUsername, profileVerified := true } }

def exGoogleId : String := "google-7"

/-- A concrete not-yet-verified user for witness statements. -/
def exUnverifiedUser : VUser :=
  { userId := 7, googleId := exGoogleId, name := exUsername,
    solvedacUsername := none, profileVerified := false }

def exDB : DB := { users := [exUnverifiedUser], requests := [] }

def exIssuedReq : VRequest := mkRequest 7 exUsername 1 100

def exDBAfterIssue : DB := { users := [exUnverifiedUser], requests := [exIssuedReq] }

def exReq2 : VRequest := mkRequest 7 exUsername 2 200

def exSupersededReq : VRequest := { exIssuedReq with status := .expired }

def exDBAfterSecondIssue : DB :=
  { users := [exUnverifiedUser], requests := [exReq2, exSupersededReq] }

def exVerifiedUser7 : VUser := { exUnverifiedUser with profileVerified := true }

lemma checkStatusReq_of_ne_pending (now : Nat) (obs : BioLookup) (r : VRequest)
    (h : r.status ≠ .pending) : checkStatusReq now obs r = r := by
  simp [checkStatusReq, h]

lemma checkStatusReq_code (now : Nat) (obs : BioLookup) (r : VRequest) :
    (checkStatusReq now obs r).code = r.code := by
  by_cases h : r.status = .pending
  · by_cases h2 : r.expiresAt < now
    · simp [checkStatusReq, h, h2]
    · cases obs <;> simp [checkStatusReq, h, h2]
  · simp [checkStatusReq, h]

lemma checkStatusReq_userId (now : Nat) (obs : BioLookup) (r : VRequest) :
    (checkStatusReq now obs r).userId = r.userId := by
  by_cases h : r.status = .pending
  · by_cases h2 : r.expiresAt < now
    · simp [checkStatusReq, h, h2]
    · cases obs <;> simp [checkStatusReq, h, h2]
  · simp [checkStatusReq, h]

lemma checkStatusReq_pending_source (now : Nat) (obs : BioLookup) (r : VRequest)
    (h : (checkStatusReq now obs r).status = .pending) : r.status = .pending := by
  by_cases hp : r.status = .pending
  · exact hp
  · rw [checkStatusReq_of_ne_pending now obs r hp] at h
    exact absurd h hp

lemma checkMany_of_ne_pending (l : List (Nat × BioLookup)) (r : VRequest)
    (h : r.status ≠ .pending) : checkMany l r = r := by
  induction l with
  | nil => rfl
  | cons p t ih =>
    show checkMany t (checkStatusReq p.1 p.2 r) = r
    rw [checkStatusReq_of_ne_pending p.1 p.2 r h, ih]

/-- C1: status transitions are monotonic.  A status-check either leaves the
request untouched or acts on a `pending` request; the resulting status is
unchanged or one of the `pending → verified / expired / failed`
transitions; and any sequence of repeated status-checks (the re-check the
UI offers from any state included) is an identity on a request already in a
terminal state. -/
theorem status_transitions_monotonic :
    ∀ (now : Nat) (obs : BioLookup) (r : VRequest) (l : List (Nat × BioLookup)),
      (r.status = .pending ∨ checkStatusReq now obs r = r) ∧
      ((checkStatusReq now obs r).status = r.status ∨
        (r.status = .pending ∧
          ((checkStatusReq now obs r).status = .verified ∨
           (checkStatusReq now obs r).status = .expired ∨
           (checkStatusReq now obs r).status = .failed))) ∧
      (r.status = .pending ∨ checkMany l r = r) := by
  intro now obs r l
  by_cases h : r.status = .pending
  · refine ⟨Or.inl h, ?_, Or.inl h⟩
    by_cases h2 : r.expiresAt < now
    · exact Or.inr ⟨h, Or.inr (Or.inl (by simp [checkStatusReq, h, h2]))⟩
    · cases obs with
      | found => exact Or.inr ⟨h, Or.inl (by simp [checkStatusReq, h, h2])⟩
      | notFound => exact Or.inl (by simp [checkStatusReq, h, h2])
      | profileNotFound => exact Or.inr ⟨h, Or.inr (Or.inr (by simp [checkStatusReq, h, h2]))⟩
      | transient => exact Or.inl (by simp [checkStatusReq, h, h2])
  · exact ⟨Or.inr (checkStatusReq_of_ne_pending now obs r h),
      Or.inl (by rw [checkStatusReq_of_ne_pending now obs r h]),
      Or.inr (checkMany_of_ne_pending l r h)⟩

/-- C2: a pending request whose expiry has passed reports `expired` on
status-check — never `verified` — and every later status-check, at any time
and with any observer outcome (the code now being present in the bio
included), still reports `expired`. -/
theorem expired_pending_reports_expired :
    ∀ (now : Nat) (obs : BioLookup) (r : VRequest) (later : List (Nat × BioLookup)),
      r.status = .pending → r.expiresAt < now →
      (checkStatusReq now obs r).status = .expired ∧
      (checkMany later (checkStatusReq now obs r)).status = .expired := by
  intro now obs r later h he
  have h1 : (checkStatusReq now obs r).status = .expired := by
    simp [checkStatusReq, h, he]
  refine ⟨h1, ?_⟩
  rw [checkMany_of_ne_pending later _ (by rw [h1]; intro hc; cases hc)]
  exact h1

/-- Witness for C2: a request pending until second 600, checked at second
601 with the code present in the bio, reports `expired`, and a still later
check with the code present still reports `expired`. -/
theorem expired_pending_reports_expired_witness :
    (checkStatusReq 601 .found exPendingReq).status = .expired ∧
    (checkMany [(700, .found)] (checkStatusReq 601 .found exPendingReq)).status = .expired :=
  expired_pending_reports_expired 601 .found exPendingReq [(700, .found)]
    (by decide) (by decide)

/-- C9 (code bug): when the remaining time reaches zero or below, the
countdown handler `updateTimeLeft` does clear the remaining time and set
the displayed status to `expired`, but it then calls `setIsPolling`, which
is not defined anywhere in the component, and raises a `ReferenceError`
instead of completing normally; the positive-time branch completes without
an error. -/
theorem updateTimeLeft_throws_at_expiry :
    (updateTimeLeft 10 5 exUIState).2 = some (.referenceError setIsPollingIdent) ∧
    (updateTimeLeft 10 5 exUIState).1.status = .expired ∧
    (updateTimeLeft 10 5 exUIState).1.timeLeft = none ∧
    (updateTimeLeft 0 100 exUIState).1.timeLeft = some 100 ∧
    (updateTimeLeft 0 100 exUIState).2 = none := by
  refine ⟨?_, ?_, ?_, ?_, ?_⟩ <;> rfl

/-- C8 (counterexample): the schema seed data inserts a user whose
`profile_verified` flag is already `TRUE` while the `profile_verification`
table receives no rows at all, so in the seeded state the flag is true
without any verification request of that user ever having reached
`verified`. -/
theorem seed_user_verified_without_request :
    seedUser ∈ initialDB.users ∧ seedUser.profileVerified = true ∧
    initialDB.requests = [] := by
  refine ⟨?_, rfl, rfl⟩
  simp [initialDB]

/-- C10: once loading has finished, a route wrapped in `ProtectedRoute`
with `requireProfileVerification` renders its children exactly when the
user is authenticated and profile-verified; an unauthenticated user is
redirected to `/login` and an authenticated but unverified user to
`/auth/solvedac`; and `UnverifiedOnlyRoute` never renders its children for
a profile-verified user. -/
theorem route_guard_verification_gate :
    ∀ (a : AuthSnapshot) (rt : String),
      a.isLoading = false →
      ((protectedRoute true loginPath a = .children ↔
          (a.isAuthenticated = true ∧ isProfileVerifiedCtx a = true)) ∧
       (a.isAuthenticated = false →
          protectedRoute true loginPath a = .redirect loginPath) ∧
       (a.isAuthenticated = true → isProfileVerifiedCtx a = false →
          protectedRoute true loginPath a = .redirect solvedacAuthPath) ∧
       (isProfileVerifiedCtx a = true → unverifiedOnlyRoute rt a ≠ .children)) := by
  intro a rt h
  cases ha : a.isAuthenticated <;> cases hv : isProfileVerifiedCtx a <;>
    simp [protectedRoute, unverifiedOnlyRoute, h, ha, hv]

/-- Witness for C10 at a loaded, authenticated, verified snapshot. -/
theorem route_guard_verification_gate_witness :
    (protectedRoute true loginPath exVerifiedAuth = .children ↔
        (exVerifiedAuth.isAuthenticated = true ∧ isProfileVerifiedCtx exVerifiedAuth = true)) ∧
    (exVerifiedAuth.isAuthenticated = false →
        protectedRoute true loginPath exVerifiedAuth = .redirect loginPath) ∧
    (exVerifiedAuth.isAuthenticated = true → isProfileVerifiedCtx exVerifiedAuth = false →
        protectedRoute true loginPath exVerifiedAuth = .redirect solvedacAuthPath) ∧
    (isProfileVerifiedCtx exVerifiedAuth = true →
        unverifiedOnlyRoute rootPath exVerifiedAuth ≠ .children) :=
  route_guard_verification_gate exVerifiedAuth rootPath rfl

lemma willVerify_of_ne_pending (now : Nat) (obs : BioLookup) (r : VRequest)
    (h : r.status ≠ .pending) : willVerify now obs r = false := by
  simp [willVerify, h]

lemma runChecks_of_ne_pending (now : Nat) (obs : BioLookup) :
    ∀ (n : Nat) (r : VRequest), r.status ≠ .pending →
      runChecks now obs n r = (r, 0, List.replicate n r.status) := by
  intro n
  induction n with
  | zero => intro r _; rfl
  | succ m ih =>
    intro r h
    simp [runChecks, checkStatusReq_of_ne_pending now obs r h, ih r h,
      willVerify_of_ne_pending now obs r h, List.replicate_succ]

/-- C4: checks serialized by the guarded read-modify-write discipline on a
live pending request with the code present apply the `pending → verified`
transition exactly once; every caller observes `verified`; and a further
check on the already-verified request is a no-op returning the same
state. -/
theorem concurrent_checks_verify_exactly_once :
    ∀ (now : Nat) (r : VRequest) (n : Nat),
      r.status = .pending → ¬ r.expiresAt < now →
      ((runChecks now .found (n + 1) r).2.1 = 1 ∧
       (runChecks now .found (n + 1) r).1.status = .verified ∧
       (∀ st ∈ (runChecks now .found (n + 1) r).2.2, st = .verified) ∧
       (∀ (now2 : Nat) (obs2 : BioLookup),
          checkStatusReq now2 obs2 ((runChecks now .found (n + 1) r).1) =
            (runChecks now .found (n + 1) r).1)) := by
  intro now r n h he
  have h2 : (checkStatusReq now .found r).status = .verified := by
    simp [checkStatusReq, h, he]
  have hw : willVerify now .found r = true := by
    simp [willVerify, h, he]
  have hne : (checkStatusReq now .found r).status ≠ .pending := by
    rw [h2]; intro hc; cases hc
  have hrest := runChecks_of_ne_pending now .found n (checkStatusReq now .found r) hne
  refine ⟨?_, ?_, ?_, ?_⟩
  · simp [runChecks, hw, hrest]
  · simp [runChecks, hrest, h2]
  · simp only [runChecks, hrest]
    intro st hst
    rcases List.mem_cons.mp hst with hc | hc
    · rw [hc, h2]
    · have := List.eq_of_mem_replicate hc
      rw [this, h2]
  · intro now2 obs2
    simp only [runChecks, hrest]
    exact checkStatusReq_of_ne_pending now2 obs2 _ hne

/-- Witness for C4: three serialized checks at second 10 on a live pending
request with the code in the bio verify exactly once, every caller sees
`verified`, and one more check is a no-op. -/
theorem concurrent_checks_verify_exactly_once_witness :
    (runChecks 10 .found (2 + 1) exPendingReq).2.1 = 1 ∧
    (runChecks 10 .found (2 + 1) exPendingReq).1.status = .verified ∧
    (∀ st ∈ (runChecks 10 .found (2 + 1) exPendingReq).2.2, st = .verified) ∧
    (∀ (now2 : Nat) (obs2 : BioLookup),
       checkStatusReq now2 obs2 ((runChecks 10 .found (2 + 1) exPendingReq).1) =
         (runChecks 10 .found (2 + 1) exPendingReq).1) :=
  concurrent_checks_verify_exactly_once 10 exPendingReq 2 (by decide) (by decide)

lemma issueRequest_ok (s : DB) (u : Nat) (name : String) (now : Nat)
    (s2 : DB) (rnew : VRequest)
    (h : issueRequest s u name now = .ok (s2, rnew)) :
    rnew = mkRequest u name (freshCode s.requests) now ∧
    s2.users = s.users ∧
    s2.requests = rnew :: s.requests.map (supersede u) := by
  unfold issueRequest at h
  split at h
  · exact Except.noConfusion h
  · split at h
    · exact Except.noConfusion h
    · split at h
      · exact Except.noConfusion h
      · simp only [Except.ok.injEq, Prod.mk.injEq] at h
        obtain ⟨hs, hr⟩ := h
        subst hr
        subst hs
        exact ⟨rfl, rfl, rfl⟩

/-- C6: for every successfully issued request, `expires_at` exceeds
`created_at` by exactly the configured expiry window, so in particular it
is strictly later. -/
theorem issued_expiry_exact_window :
    ∀ (s : DB) (u : Nat) (name : String) (now : Nat) (s2 : DB) (rnew : VRequest),
      issueRequest s u name now = .ok (s2, rnew) →
      rnew.expiresAt = rnew.createdAt + expiryWindow ∧
      rnew.createdAt < rnew.expiresAt := by
  intro s u name now s2 rnew h
  obtain ⟨hr, -, -⟩ := issueRequest_ok s u name now s2 rnew h
  subst hr
  refine ⟨rfl, ?_⟩
  simp [mkRequest, expiryWindow]

lemma exIssue_ok : issueRequest exDB 7 exUsername 100 = .ok (exDBAfterIssue, exIssuedReq) := by
  rfl

/-- Witness for C6 at the concrete issuance of `exIssuedReq`. -/
theorem issued_expiry_exact_window_witness :
    exIssuedReq.expiresAt = exIssuedReq.createdAt + expiryWindow ∧
    exIssuedReq.createdAt < exIssuedReq.expiresAt :=
  issued_expiry_exact_window exDB 7 exUsername 100 exDBAfterIssue exIssuedReq exIssue_ok

/-- C7: once the per-code/per-user bound is reached, the next status-check
returns the distinct `RateLimited` result carrying a positive retry-after
duration instead of a status, and the request is left untouched; the
frontend service maps the 429 response to `rateLimited: true` with the
retry-after value, and the `VerifyAuth` handler leaves the displayed
status unchanged on a rate-limited result. -/
theorem rate_limited_check_no_transition :
    ∀ (cnt now : Nat) (obs : BioLookup) (r : VRequest) (w : Option Nat),
      rateLimitMax ≤ cnt →
      (checkRL cnt now obs r = (r, .rateLimited rateLimitWindowSeconds) ∧
       (∀ st e f, (checkRL cnt now obs r).2 ≠ .status st e f) ∧
       0 < rateLimitWindowSeconds ∧
       (feCheckVerificationStatus (.httpError 429 w)).rateLimited = true ∧
       (feCheckVerificationStatus (.httpError 429 w)).retryAfter =
         some (w.getD rateLimitWindowSeconds) ∧
       (∀ st : VerifyAuthUI,
          (uiApplyCheck (feCheckVerificationStatus (.httpError 429 w)) st).status =
            st.status)) := by
  intro cnt now obs r w h
  have h1 : checkRL cnt now obs r = (r, .rateLimited rateLimitWindowSeconds) := by
    simp [checkRL, h]
  refine ⟨h1, ?_, ?_, ?_, ?_, ?_⟩
  · intro st e f
    rw [h1]
    intro hc
    cases hc
  · decide
  · rfl
  · rfl
  · intro st
    rfl

/-- Witness for C7: the sixth check (five prior checks inside the window)
on a live pending request is rate-limited and changes nothing. -/
theorem rate_limited_check_no_transition_witness :
    (checkRL 5 10 .found exPendingReq = (exPendingReq, .rateLimited rateLimitWindowSeconds) ∧
     (∀ st e f, (checkRL 5 10 .found exPendingReq).2 ≠ .status st e f) ∧
     0 < rateLimitWindowSeconds ∧
     (feCheckVerificationStatus (.httpError 429 none)).rateLimited = true ∧
     (feCheckVerificationStatus (.httpError 429 none)).retryAfter =
       some (Option.none.getD rateLimitWindowSeconds) ∧
     (∀ st : VerifyAuthUI,
        (uiApplyCheck (feCheckVerificationStatus (.httpError 429 none)) st).status =
          st.status)) :=
  rate_limited_check_no_transition 5 10 .found exPendingReq none (by decide)

lemma le_foldr_max (c : Nat) : ∀ l : List Nat, c ∈ l → c ≤ l.foldr max 0 := by
  intro l
  induction l with
  | nil => intro h; cases h
  | cons a t ih =>
    intro h
    rcases List.mem_cons.mp h with rfl | h2
    · exact le_max_left _ _
    · exact le_trans (ih h2) (le_max_right _ _)

lemma mem_codes_lt_freshCode (l : List VRequest) (c : Nat) (h : c ∈ codesOf l) :
    c < freshCode l := by
  have := le_foldr_max c (codesOf l) h
  unfold freshCode
  omega

lemma supersede_code (u : Nat) (r : VRequest) : (supersede u r).code = r.code := by
  unfold supersede; split <;> rfl

lemma supersede_userId (u : Nat) (r : VRequest) : (supersede u r).userId = r.userId := by
  unfold supersede; split <;> rfl

lemma codesOf_map_code_preserving (f : VRequest → VRequest)
    (hf : ∀ r, (f r).code = r.code) :
    ∀ l : List VRequest, codesOf (l.map f) = codesOf l := by
  intro l
  induction l with
  | nil => rfl
  | cons a t ih =>
    show (f a).code :: codesOf (t.map f) = a.code :: codesOf t
    rw [hf a, ih]

/-- C5: verification codes are unique across requests.  When the table
holds pairwise-distinct codes, the code the issuer allocates differs from
every stored code (pending ones included), a successful issuance returns a
code absent from the table and preserves distinctness, and the schema's
`UNIQUE` column constraint preserves distinctness on every accepted
insert. -/
theorem verification_codes_unique :
    ∀ (s : DB) (u : Nat) (name : String) (now : Nat),
      (codesOf s.requests).Nodup →
      ((∀ r ∈ s.requests, freshCode s.requests ≠ r.code) ∧
       (∀ (s2 : DB) (rnew : VRequest), issueRequest s u name now = .ok (s2, rnew) →
          rnew.code ∉ codesOf s.requests ∧ (codesOf s2.requests).Nodup) ∧
       (∀ (t : List VRequest) (r : VRequest) (t2 : List VRequest),
          (codesOf t).Nodup → insertVerificationRow t r = some t2 →
          (codesOf t2).Nodup)) := by
  intro s u name now hnd
  refine ⟨?_, ?_, ?_⟩
  · intro r hr heq
    have hmem : r.code ∈ codesOf s.requests := List.mem_map_of_mem _ hr
    have := mem_codes_lt_freshCode s.requests r.code hmem
    omega
  · intro s2 rnew h
    obtain ⟨hr, -, hreq⟩ := issueRequest_ok s u name now s2 rnew h
    have hcode : rnew.code = freshCode s.requests := by rw [hr]; rfl
    constructor
    · rw [hcode]
      intro hmem
      have := mem_codes_lt_freshCode s.requests _ hmem
      omega
    · rw [hreq]
      have hmap : codesOf (s.requests.map (supersede u)) = codesOf s.requests :=
        codesOf_map_code_preserving (supersede u) (supersede_code u) s.requests
      show (rnew.code :: codesOf (s.requests.map (supersede u))).Nodup
      rw [hmap, hcode]
      refine List.nodup_cons.mpr ⟨?_, hnd⟩
      intro hm
      have := mem_codes_lt_freshCode s.requests _ hm
      omega
  · intro t r t2 hnt hins
    unfold insertVerificationRow at hins
    split at hins
    · exact Option.noConfusion hins
    · rename_i hany
      simp only [Option.some.injEq] at hins
      subst hins
      show (r.code :: codesOf t).Nodup
      refine List.nodup_cons.mpr ⟨?_, hnt⟩
      intro hm
      simp only [codesOf, List.mem_map] at hm
      obtain ⟨x, hx, hxc⟩ := hm
      exact hany (List.any_eq_true.mpr ⟨x, hx, by simp [hxc]⟩)

/-- Witness for C5 at the empty seeded table of `exDB`. -/
theorem verification_codes_unique_witness :
    (∀ r ∈ exDB.requests, freshCode exDB.requests ≠ r.code) ∧
    (∀ (s2 : DB) (rnew : VRequest), issueRequest exDB 7 exUsername 100 = .ok (s2, rnew) →
       rnew.code ∉ codesOf exDB.requests ∧ (codesOf s2.requests).Nodup) ∧
    (∀ (t : List VRequest) (r : VRequest) (t2 : List VRequest),
       (codesOf t).Nodup → insertVerificationRow t r = some t2 →
       (codesOf t2).Nodup) :=
  verification_codes_unique exDB 7 exUsername 100 (by simp [exDB, codesOf])

lemma find?_map_comm {α : Type} (g : α → α) (p : α → Bool)
    (hg : ∀ x, p (g x) = p x) :
    ∀ l : List α, (l.map g).find? p = (l.find? p).map g := by
  intro l
  induction l with
  | nil => rfl
  | cons a t ih =>
    cases hpa : p a
    · have hga : p (g a) = false := by rw [hg a, hpa]
      simp [List.find?, hpa, hga, ih]
    · have hga : p (g a) = true := by rw [hg a, hpa]
      simp [List.find?, hpa, hga]

lemma find?_filter_keep {α : Type} (p q : α → Bool) :
    ∀ (l : List α) (r : α), l.find? p = some r → q r = true →
      (l.filter q).find? p = some r := by
  intro l
  induction l with
  | nil => intro r h; cases h
  | cons a t ih =>
    intro r h hq
    cases hpa : p a
    · have h2 : t.find? p = some r := by
        rw [List.find?_cons_of_neg t (by simp [hpa])] at h
        exact h
      cases hqa : q a
      · rw [List.filter_cons_of_neg (by simp [hqa])]
        exact ih r h2 hq
      · rw [List.filter_cons_of_pos (by simp [hqa]),
          List.find?_cons_of_neg _ (by simp [hpa])]
        exact ih r h2 hq
    · have h3 : a = r := by
        rw [List.find?_cons_of_pos t (by simp [hpa])] at h
        exact Option.some.inj h
      subst h3
      rw [List.filter_cons_of_pos (by simp [hq]),
        List.find?_cons_of_pos _ (by simp [hpa])]

lemma countP_map_le {α : Type} (g : α → α) (p : α → Bool)
    (hg : ∀ x, p (g x) = true → p x = true) :
    ∀ l : List α, (l.map g).countP p ≤ l.countP p := by
  intro l
  rw [List.countP_map]
  exact List.countP_mono_left (fun x _ hx => hg x hx)

lemma countP_filter_le {α : Type} (q p : α → Bool) (l : List α) :
    (l.filter q).countP p ≤ l.countP p :=
  (List.filter_sublist l).countP_le p

lemma statusOfCode_applyOp_expired (op : Op) (s : DB) (c : Nat)
    (h : statusOfCode s c = some .expired) :
    statusOfCode (applyOp op s) c = some .expired := by
  obtain ⟨r0, hf, hst⟩ : ∃ r0, s.requests.find? (fun r => r.code == c) = some r0 ∧
      r0.status = .expired := by
    unfold statusOfCode findByCode at h
    cases hf : s.requests.find? (fun r => r.code == c) with
    | none => rw [hf] at h; cases h
    | some r0 =>
      rw [hf] at h
      exact ⟨r0, rfl, by simpa using h⟩
  have hpc : (r0.code == c) = true := by
    have hx := List.find?_some hf
    simpa using hx
  have hne : r0.status ≠ .pending := by rw [hst]; intro hx; cases hx
  cases op with
  | check c2 now obs =>
    have hreq : (applyOp (.check c2 now obs) s).requests =
        s.requests.map (fun r => if r.code == c2 then checkStatusReq now obs r else r) := rfl
    unfold statusOfCode findByCode
    rw [hreq, List.find?_map]
    have hpf : ((fun r : VRequest => r.code == c) ∘
        (fun r => if r.code == c2 then checkStatusReq now obs r else r)) =
        (fun r : VRequest => r.code == c) := by
      funext r
      show (((if r.code == c2 then checkStatusReq now obs r else r).code == c)) = (r.code == c)
      by_cases hc : (r.code == c2) = true
      · simp [hc, checkStatusReq_code]
      · simp [hc]
    rw [hpf, hf]
    by_cases hc : r0.code = c2
    · simp [hc, checkStatusReq_of_ne_pending now obs r0 hne, hst]
    · simp [hc, hst]
  | cleanup now =>
    have hreq : (applyOp (.cleanup now) s).requests =
        s.requests.filter (fun r => !(decide (r.expiresAt < now) && r.status == VStatus.pending)) := rfl
    unfold statusOfCode findByCode
    rw [hreq, find?_filter_keep _ _ s.requests r0 hf (by rw [hst]; simp)]
    simp [hst]
  | issue u name now =>
    cases hi : issueRequest s u name now with
    | error e =>
      have happ : applyOp (.issue u name now) s = s := by
        show (match issueRequest s u name now with
              | Except.ok (s2, _) => s2
              | Except.error _ => s) = s
        rw [hi]
      rw [happ]
      exact h
    | ok pr =>
      obtain ⟨s2, rnew⟩ := pr
      obtain ⟨hr, -, hreq⟩ := issueRequest_ok s u name now s2 rnew hi
      have happ : applyOp (.issue u name now) s = s2 := by
        show (match issueRequest s u name now with
              | Except.ok (s2, _) => s2
              | Except.error _ => s) = s2
        rw [hi]
      rw [happ]
      unfold statusOfCode findByCode
      rw [hreq]
      have hcmem : c ∈ codesOf s.requests := by
        have hc0 : r0.code = c := by simpa using hpc
        have hm := List.mem_of_find?_eq_some hf
        rw [← hc0]
        exact List.mem_map_of_mem _ hm
      have hfr : ¬ ((rnew.code == c) = true) := by
        have h1 : rnew.code = freshCode s.requests := by rw [hr]; rfl
        have h2 := mem_codes_lt_freshCode s.requests c hcmem
        simp [h1]
        omega
      have hcons : List.find? (fun r : VRequest => r.code == c)
          (rnew :: s.requests.map (supersede u)) =
          List.find? (fun r : VRequest => r.code == c) (s.requests.map (supersede u)) :=
        List.find?_cons_of_neg _ hfr
      rw [hcons, List.find?_map]
      have hpf : ((fun r : VRequest => r.code == c) ∘ (supersede u)) =
          (fun r : VRequest => r.code == c) := by
        funext r
        show ((supersede u r).code == c) = (r.code == c)
        rw [supersede_code]
      rw [hpf, hf]
      have hsup : (supersede u r0).status = .expired := by
        unfold supersede
        by_cases hcond : (r0.userId == u && r0.status == VStatus.pending) = true
        · simp [hcond]
        · simp [hcond, hst]
      simp [hsup]

lemma statusOfCode_applyOps_expired :
    ∀ (ops : List Op) (s : DB) (c : Nat), statusOfCode s c = some .expired →
      statusOfCode (applyOps ops s) c = some .expired := by
  intro ops
  induction ops with
  | nil => intro s c h; exact h
  | cons op t ih =>
    intro s c h
    exact ih (applyOp op s) c (statusOfCode_applyOp_expired op s c h)

lemma pendingCountU_issue_self (s : DB) (u : Nat) (name : String) (now : Nat)
    (s2 : DB) (rnew : VRequest)
    (h : issueRequest s u name now = .ok (s2, rnew)) :
    pendingCountU u s2 = 1 := by
  obtain ⟨hr, -, hreq⟩ := issueRequest_ok s u name now s2 rnew h
  unfold pendingCountU
  rw [hreq, List.countP_cons]
  have hp : (rnew.userId == u && rnew.status == VStatus.pending) = true := by
    rw [hr]
    simp [mkRequest]
  have hzero : (s.requests.map (supersede u)).countP
      (fun r => r.userId == u && r.status == VStatus.pending) = 0 := by
    rw [List.countP_map, List.countP_eq_zero]
    intro r hrm
    show ¬ (((supersede u r).userId == u && (supersede u r).status == VStatus.pending) = true)
    unfold supersede
    by_cases hcond : (r.userId == u && r.status == VStatus.pending) = true
    · rw [if_pos hcond]
      simp
    · rw [if_neg hcond]
      exact fun hx => hcond hx
  rw [hzero, hp]
  simp

lemma pendingCountU_issue_other (s : DB) (u u2 : Nat) (name : String) (now : Nat)
    (s2 : DB) (rnew : VRequest)
    (h : issueRequest s u name now = .ok (s2, rnew)) (hne : u2 ≠ u) :
    pendingCountU u2 s2 ≤ pendingCountU u2 s := by
  obtain ⟨hr, -, hreq⟩ := issueRequest_ok s u name now s2 rnew h
  unfold pendingCountU
  rw [hreq, List.countP_cons]
  have hp : (rnew.userId == u2 && rnew.status == VStatus.pending) = false := by
    rw [hr]
    simp [mkRequest]
    intro hx
    exact absurd hx.symm hne
  rw [hp]
  simp only [if_false, Bool.false_eq_true, Nat.add_zero]
  refine countP_map_le (supersede u) _ ?_ s.requests
  intro x hx
  unfold supersede at hx
  by_cases hcond : (x.userId == u && x.status == VStatus.pending) = true
  · rw [if_pos hcond] at hx
    simp at hx
  · rw [if_neg hcond] at hx
    exact hx

lemma pendingCountU_check_le (s : DB) (u2 c now : Nat) (obs : BioLookup) :
    pendingCountU u2 (checkOp s c now obs) ≤ pendingCountU u2 s := by
  unfold pendingCountU
  show ((s.requests.map fun r => if r.code == c then checkStatusReq now obs r else r).countP _) ≤ _
  refine countP_map_le _ _ ?_ s.requests
  intro x hx
  by_cases hc : (x.code == c) = true
  · rw [if_pos hc] at hx
    rcases Bool.and_eq_true_iff.mp hx with ⟨h1, h2⟩
    rw [checkStatusReq_userId] at h1
    have h3 : (checkStatusReq now obs x).status = .pending := by
      simpa using h2
    have h4 : x.status = .pending := checkStatusReq_pending_source now obs x h3
    refine Bool.and_eq_true_iff.mpr ⟨h1, ?_⟩
    simp [h4]
  · rw [if_neg hc] at hx
    exact hx

lemma pendingCountU_cleanup_le (s : DB) (u2 now : Nat) :
    pendingCountU u2 (cleanupOp s now) ≤ pendingCountU u2 s := by
  unfold pendingCountU
  exact countP_filter_le _ _ s.requests

lemma atMostOnePending_applyOp (op : Op) (s : DB)
    (h : atMostOnePending s) : atMostOnePending (applyOp op s) := by
  cases op with
  | check c now obs =>
    intro u2
    exact le_trans (pendingCountU_check_le s u2 c now obs) (h u2)
  | cleanup now =>
    intro u2
    exact le_trans (pendingCountU_cleanup_le s u2 now) (h u2)
  | issue u name now =>
    cases hi : issueRequest s u name now with
    | error e =>
      have happ : applyOp (.issue u name now) s = s := by
        show (match issueRequest s u name now with
              | Except.ok (s2, _) => s2
              | Except.error _ => s) = s
        rw [hi]
      rw [happ]
      exact h
    | ok pr =>
      obtain ⟨s2, rnew⟩ := pr
      have happ : applyOp (.issue u name now) s = s2 := by
        show (match issueRequest s u name now with
              | Except.ok (s2, _) => s2
              | Except.error _ => s) = s2
        rw [hi]
      rw [happ]
      intro u2
      by_cases hu : u2 = u
      · subst hu
        rw [pendingCountU_issue_self s u2 name now s2 rnew hi]
      · exact le_trans (pendingCountU_issue_other s u u2 name now s2 rnew hi hu) (h u2)

lemma atMostOnePending_applyOps :
    ∀ (ops : List Op) (s : DB), atMostOnePending s →
      atMostOnePending (applyOps ops s) := by
  intro ops
  induction ops with
  | nil => intro s h; exact h
  | cons op t ih =>
    intro s h
    exact ih (applyOp op s) (atMostOnePending_applyOp op s h)

/-- C3: issuing a second request for the same user invalidates the earlier
pending one.  After a successful issuance, the old pending request's code
is recorded `expired` in every reachable later state — so a status-check on
it can never report `verified`, whatever the bio contains — the issuing
user holds exactly one live pending request, and the at-most-one-pending
invariant is preserved by every subsequent operation. -/
theorem issuing_supersedes_previous :
    ∀ (s : DB) (u : Nat) (name : String) (now : Nat) (s2 : DB) (rnew : VRequest)
      (c : Nat) (r : VRequest),
      issueRequest s u name now = .ok (s2, rnew) →
      findByCode s c = some r → r.userId = u → r.status = .pending →
      ((∀ ops : List Op, statusOfCode (applyOps ops s2) c = some .expired) ∧
       (∀ ops : List Op, statusOfCode (applyOps ops s2) c ≠ some .verified) ∧
       pendingCountU u s2 = 1 ∧
       (atMostOnePending s → ∀ ops : List Op, atMostOnePending (applyOps ops s2))) := by
  intro s u name now s2 rnew c r hi hfc hru hrp
  obtain ⟨hr, -, hreq⟩ := issueRequest_ok s u name now s2 rnew hi
  unfold findByCode at hfc
  have hpc : (r.code == c) = true := by
    have hx := List.find?_some hfc
    simpa using hx
  have hcmem : c ∈ codesOf s.requests := by
    have hc0 : r.code = c := by simpa using hpc
    have hm := List.mem_of_find?_eq_some hfc
    rw [← hc0]
    exact List.mem_map_of_mem _ hm
  have hfr : ¬ ((rnew.code == c) = true) := by
    have h1 : rnew.code = freshCode s.requests := by rw [hr]; rfl
    have h2 := mem_codes_lt_freshCode s.requests c hcmem
    simp [h1]
    omega
  have hbase : statusOfCode s2 c = some .expired := by
    unfold statusOfCode findByCode
    rw [hreq]
    have hcons : List.find? (fun x : VRequest => x.code == c)
        (rnew :: s.requests.map (supersede u)) =
        List.find? (fun x : VRequest => x.code == c) (s.requests.map (supersede u)) :=
      List.find?_cons_of_neg _ hfr
    rw [hcons, List.find?_map]
    have hpf : ((fun x : VRequest => x.code == c) ∘ (supersede u)) =
        (fun x : VRequest => x.code == c) := by
      funext x
      show ((supersede u x).code == c) = (x.code == c)
      rw [supersede_code]
    rw [hpf, hfc]
    have hsup : (supersede u r).status = .expired := by
      unfold supersede
      rw [if_pos (by simp [hru, hrp])]
    simp [hsup]
  refine ⟨?_, ?_, pendingCountU_issue_self s u name now s2 rnew hi, ?_⟩
  · intro ops
    exact statusOfCode_applyOps_expired ops s2 c hbase
  · intro ops hcontra
    have hx := statusOfCode_applyOps_expired ops s2 c hbase
    rw [hx] at hcontra
    exact absurd (Option.some.inj hcontra) (by intro hy; cases hy)
  · intro hmono ops
    have happ : applyOp (.issue u name now) s = s2 := by
      show (match issueRequest s u name now with
            | Except.ok (s2, _) => s2
            | Except.error _ => s) = s2
      rw [hi]
    have h2 : atMostOnePending s2 := by
      rw [← happ]
      exact atMostOnePending_applyOp (.issue u name now) s hmono
    exact atMostOnePending_applyOps ops s2 h2

lemma exIssue2_ok :
    issueRequest exDBAfterIssue 7 exUsername 200 = .ok (exDBAfterSecondIssue, exReq2) := by
  rfl

/-- Witness for C3: re-issuing for user 7 supersedes the earlier pending
request with code 1. -/
theorem issuing_supersedes_previous_witness :
    (∀ ops : List Op, statusOfCode (applyOps ops exDBAfterSecondIssue) 1 = some .expired) ∧
    (∀ ops : List Op, statusOfCode (applyOps ops exDBAfterSecondIssue) 1 ≠ some .verified) ∧
    pendingCountU 7 exDBAfterSecondIssue = 1 ∧
    (atMostOnePending exDBAfterIssue →
      ∀ ops : List Op, atMostOnePending (applyOps ops exDBAfterSecondIssue)) :=
  issuing_supersedes_previous exDBAfterIssue 7 exUsername 200 exDBAfterSecondIssue
    exReq2 1 exIssuedReq exIssue2_ok (by rfl) rfl rfl

/-- C8 (amended): in the runtime operation model, the only way a stored
user's `profile_verified` flag can turn from false to true is a
status-check finding the code in the bio and driving one of that user's
live pending requests through `pending → verified`.  (The schema seed data
is the one exception: it inserts a user with the flag already true.) -/
theorem flag_set_only_by_verified_transition :
    ∀ (s : DB) (op : Op) (u : Nat) (usr usr2 : VUser),
      findUser s u = some usr → usr.profileVerified = false →
      findUser (applyOp op s) u = some usr2 → usr2.profileVerified = true →
      ∃ (c now2 : Nat), op = .check c now2 .found ∧
        ∃ r, r ∈ s.requests ∧ r.code = c ∧ r.userId = usr.userId ∧
          r.status = .pending ∧ ¬ r.expiresAt < now2 := by
  intro s op u usr usr2 hfu hflag hfu2 hflag2
  cases op with
  | issue uu name now =>
    exfalso
    cases hi : issueRequest s uu name now with
    | error e =>
      have happ : applyOp (.issue uu name now) s = s := by
        show (match issueRequest s uu name now with
              | Except.ok (s2, _) => s2
              | Except.error _ => s) = s
        rw [hi]
      rw [happ, hfu] at hfu2
      obtain rfl := Option.some.inj hfu2
      rw [hflag] at hflag2
      cases hflag2
    | ok pr =>
      obtain ⟨s2, rnew⟩ := pr
      obtain ⟨-, hu, -⟩ := issueRequest_ok s uu name now s2 rnew hi
      have happ : applyOp (.issue uu name now) s = s2 := by
        show (match issueRequest s uu name now with
              | Except.ok (s2, _) => s2
              | Except.error _ => s) = s2
        rw [hi]
      rw [happ] at hfu2
      unfold findUser at hfu hfu2
      rw [hu, hfu] at hfu2
      obtain rfl := Option.some.inj hfu2
      rw [hflag] at hflag2
      cases hflag2
  | cleanup now =>
    exfalso
    have happ : (applyOp (.cleanup now) s).users = s.users := rfl
    unfold findUser at hfu hfu2
    rw [happ, hfu] at hfu2
    obtain rfl := Option.some.inj hfu2
    rw [hflag] at hflag2
    cases hflag2
  | check c now2 obs =>
    have husers : (applyOp (.check c now2 obs) s).users =
        s.users.map (fun usr3 =>
          if s.requests.any (fun r => r.code == c && r.userId == usr3.userId && willVerify now2 obs r)
          then { usr3 with profileVerified := true } else usr3) := rfl
    unfold findUser at hfu hfu2
    rw [husers, List.find?_map] at hfu2
    have hpf : ((fun usr3 : VUser => usr3.userId == u) ∘ (fun usr3 =>
        if s.requests.any (fun r => r.code == c && r.userId == usr3.userId && willVerify now2 obs r)
        then { usr3 with profileVerified := true } else usr3)) =
        (fun usr3 : VUser => usr3.userId == u) := by
      funext x
      show (((if s.requests.any (fun r => r.code == c && r.userId == x.userId && willVerify now2 obs r)
        then { x with profileVerified := true } else x)).userId == u) = (x.userId == u)
      by_cases hcond : (s.requests.any
          (fun r => r.code == c && r.userId == x.userId && willVerify now2 obs r)) = true
      · rw [if_pos hcond]
      · rw [if_neg hcond]
    rw [hpf, hfu] at hfu2
    have hg2 : (if s.requests.any
        (fun r => r.code == c && r.userId == usr.userId && willVerify now2 obs r)
        then { usr with profileVerified := true } else usr) = usr2 := by
      simpa using hfu2
    by_cases hcond : (s.requests.any
        (fun r => r.code == c && r.userId == usr.userId && willVerify now2 obs r)) = true
    · obtain ⟨r, hrmem, hp⟩ := List.any_eq_true.mp hcond
      rcases Bool.and_eq_true_iff.mp hp with ⟨hab, hwv⟩
      rcases Bool.and_eq_true_iff.mp hab with ⟨ha, hb⟩
      unfold willVerify at hwv
      rcases Bool.and_eq_true_iff.mp hwv with ⟨hcd, hobs⟩
      rcases Bool.and_eq_true_iff.mp hcd with ⟨hpend, hnexp⟩
      have hobs2 : obs = .found := by simpa using hobs
      refine ⟨c, now2, by rw [hobs2], r, hrmem, by simpa using ha, by simpa using hb,
        by simpa using hpend, ?_⟩
      simpa using hnexp
    · exfalso
      rw [if_neg hcond] at hg2
      rw [← hg2, hflag] at hflag2
      cases hflag2

/-- Witness for the amended C8: checking code 1 at second 100 with the code
present flips user 7's flag, and the theorem recovers the verifying
request. -/
theorem flag_set_only_by_verified_transition_witness :
    ∃ (c now2 : Nat), Op.check 1 100 .found = .check c now2 .found ∧
      ∃ r, r ∈ exDBAfterIssue.requests ∧ r.code = c ∧
        r.userId = exUnverifiedUser.userId ∧ r.status = .pending ∧
        ¬ r.expiresAt < now2 :=
  flag_set_only_by_verified_transition exDBAfterIssue (.check 1 100 .found) 7
    exUnverifiedUser exVerifiedUser7 rfl rfl (by rfl) rfl
